import Mathlib

/-!
Verification of the competition-announcement Discord bot.

This file shallowly embeds the logic of `discord_bot/bot.py` and
`discord_bot/competition_config.py`: the schedule resolver
(`get_latest_executed_competition`), the announcement ledger
(`last_competitions_announcements`, a Python dict modelled as an ordered
association list), the result aggregator and announcement path
(`get_competition_data`, `create_discord_message`,
`announce_competition_results`), the sweep loop body
(`update_config_and_announce_results`), and the registry refresh
(`load_config_from_remote_repo`).

Modelling conventions:
- Python exceptions are modelled with `Except PyErr`; each `PyErr`
  constructor is documented with the Python exception it stands for.
- Python `datetime` values are a record of UTC calendar fields; comparison
  is field-lexicographic exactly as in CPython.
- `wandb` run summaries are ordered lists of key/value pairs (the
  iteration order of `run.summary.items()`); values are `PyVal`.
- Python floats that only ever flow into `f"{x:.2f}"` formatting are
  modelled exactly as an integer count of hundredths (`PyVal.num`).
- External collaborators (the wandb query, the Discord guild/channel) are
  an explicit `Env` record consumed where the code performs the call.
-/

/-- Python exceptions raised along the announcement path. -/
inductive PyErr where
  /-- Model of `ValueError`: raised by `datetime.replace` for an out-of-range day,
  by `max([])`, and by the non-200 branch of the config fetch. -/
  | valueError
  /-- Model of `ValueError` from `datetime.strptime` on a malformed time slot. -/
  | parseError
  /-- Model of `UnboundLocalError`: a local variable that was only annotated, never
  assigned, is read; the payload is the variable's name. -/
  | unboundLocal (v : String)
  /-- pydantic `ValidationError` when constructing a model. -/
  | validationError
  /-- Model of `json.JSONDecodeError` from `json.loads`. -/
  | jsonError
  /-- Model of `AttributeError`: reading an instance attribute that was annotated in
  `__init__` but never assigned. -/
  | attributeError
  /-- transport failure from `channel.send`. -/
  | httpError
deriving DecidableEq, Repr

/-- A value stored in a wandb run summary. `num h` models the float
`h / 100` exactly (scores only ever reach `f"{score:.2f}"`). -/
inductive PyVal where
  | str (s : String)
  | int (n : Int)
  | num (hundredths : Int)
deriving DecidableEq, Repr

/-- One wandb run, reduced to the ordered items of `run.summary`. -/
def Run : Type := List (String × PyVal)

instance : DecidableEq Run := inferInstanceAs (DecidableEq (List (String × PyVal)))

/-- A Python `datetime.datetime` in UTC (seconds and finer are never
produced by the code under verification). -/
structure Datetime where
  year : Nat
  month : Nat
  day : Nat
  hour : Nat
  minute : Nat
deriving DecidableEq, Repr

/-- CPython `datetime` comparison: field-lexicographic. -/
def Datetime.le (a b : Datetime) : Bool :=
  if a.year ≠ b.year then decide (a.year < b.year)
  else if a.month ≠ b.month then decide (a.month < b.month)
  else if a.day ≠ b.day then decide (a.day < b.day)
  else if a.hour ≠ b.hour then decide (a.hour < b.hour)
  else decide (a.minute ≤ b.minute)

/-- CPython `datetime` strict comparison: field-lexicographic. -/
def Datetime.lt (a b : Datetime) : Bool :=
  if a.year ≠ b.year then decide (a.year < b.year)
  else if a.month ≠ b.month then decide (a.month < b.month)
  else if a.day ≠ b.day then decide (a.day < b.day)
  else if a.hour ≠ b.hour then decide (a.hour < b.hour)
  else decide (a.minute < b.minute)

/-- Gregorian leap-year rule, as used by `datetime.replace`'s validation. -/
def isLeapYear (y : Nat) : Bool :=
  (y % 4 == 0 && y % 100 != 0) || y % 400 == 0

/-- Number of days in a month, as used by `datetime.replace`'s validation. -/
def daysInMonth (y m : Nat) : Nat :=
  if m = 2 then (if isLeapYear y then 29 else 28)
  else if m = 4 ∨ m = 6 ∨ m = 9 ∨ m = 11 then 30
  else 31

/-- Python `str.split(":")`, on the character list of the string. -/
def splitOnColon : List Char → List (List Char)
  | [] => [[]]
  | c :: cs =>
    if c = ':' then [] :: splitOnColon cs
    else match splitOnColon cs with
      | [] => [[c]]
      | g :: gs => (c :: g) :: gs

/-- One field of `strptime`'s `%H` / `%M`: one or two digit characters
whose value is at most `hi`. -/
def parseTimeField (cs : List Char) (hi : Nat) : Option Nat :=
  if cs.length = 1 ∨ cs.length = 2 then
    if cs.all Char.isDigit then
      let n := cs.foldl (fun acc c => acc * 10 + (c.toNat - 48)) 0
      if n ≤ hi then some n else none
    else none
  else none

/-- Model of `datetime.strptime(time_str, "%H:%M")`, reduced to the hour/minute it
yields; `none` models the `ValueError` it raises on malformed input. -/
def strptimeHM (s : String) : Option (Nat × Nat) :=
  match splitOnColon s.data with
  | [h, m] =>
    match parseTimeField h 23, parseTimeField m 59 with
    | some hh, some mm => some (hh, mm)
    | _, _ => none
  | _ => none

/-- Python `max(iterable)` over datetimes: first maximal element
(later elements replace the running maximum only when strictly greater);
`none` models the `ValueError` raised on an empty iterable. -/
def listMax : List Datetime → Option Datetime
  | [] => none
  | t :: ts => some (ts.foldl (fun b x => if b.lt x then x else b) t)

/-- Evaluation of a Python list comprehension whose element expression may
raise: elements are produced left to right and the first exception
propagates. -/
def mapExcept {α β : Type} (f : α → Except PyErr β) : List α → Except PyErr (List β)
  | [] => .ok []
  | a :: as =>
    match f a with
    | .error e => .error e
    | .ok b =>
      match mapExcept f as with
      | .error e => .error e
      | .ok bs => .ok (b :: bs)

/-- One element of the first comprehension of
`get_latest_executed_competition` (bot.py lines 191-196):
`strptime(s, "%H:%M").replace(year=now.year, month=now.month,
day=now.day, tzinfo=utc)`. -/
def todaySlot (now : Datetime) (s : String) : Except PyErr Datetime :=
  match strptimeHM s with
  | some hm => .ok ⟨now.year, now.month, now.day, hm.1, hm.2⟩
  | none => .error .parseError

/-- One element of the second comprehension (bot.py lines 205-210): the
same, but with `day=current_time.day - 1`; `datetime.replace` validates
the day against the current month and raises `ValueError` otherwise. -/
def yesterdaySlot (now : Datetime) (s : String) : Except PyErr Datetime :=
  match strptimeHM s with
  | some hm =>
    if 1 ≤ now.day - 1 ∧ now.day - 1 ≤ daysInMonth now.year now.month then
      .ok ⟨now.year, now.month, now.day - 1, hm.1, hm.2⟩
    else .error .valueError
  | none => .error .parseError

/-- Model of `DiscordBot.get_latest_executed_competition` (bot.py lines 188-212):
converts each slot to today's date, keeps those `<= now` and returns their
maximum; otherwise rebuilds every slot with `day=current_time.day - 1`
(the naive yesterday computation) and returns the maximum of those.  The
empty-schedule `max([])` and out-of-range day both surface as
`ValueError`. -/
def get_latest_executed_competition (schedule : List String) (now : Datetime) :
    Except PyErr Datetime :=
  match mapExcept (todaySlot now) schedule with
  | .error e => .error e
  | .ok times =>
    match listMax (times.filter (fun t => t.le now)) with
    | some t => .ok t
    | none =>
      match mapExcept (yesterdaySlot now) schedule with
      | .error e => .error e
      | .ok ytimes =>
        match listMax ytimes with
        | some t => .ok t
        | none => .error .valueError

/-- Fuel-indexed helper for `dedupFO` (the fuel keeps the recursion
structural; `dedupFO` always supplies enough fuel). -/
def dedupFOF {α : Type} [DecidableEq α] : Nat → List α → List α
  | 0, _ => []
  | _ + 1, [] => []
  | n + 1, a :: as => a :: dedupFOF n (as.filter (fun x => x ≠ a))

/-- Keys of a Python dict built by insertion: distinct values in order of
first occurrence.  `Counter(validators_choices)` iterates its keys in this
order. -/
def dedupFO {α : Type} [DecidableEq α] (l : List α) : List α :=
  dedupFOF l.length l

/-- Model of `Counter(l).items()`: each first-occurrence-ordered key paired with its
multiplicity in `l`. -/
def counterItems {α : Type} [DecidableEq α] (l : List α) : List (α × Nat) :=
  (dedupFO l).map (fun v => (v, l.count v))

/-- The selection loop of `heapq.nlargest(1, items, key=count)`: keeps the
running best and replaces it only on a strictly larger count, so the first
of several maximal entries wins. -/
def pickFirstMax {α : Type} : α × Nat → List (α × Nat) → α × Nat
  | best, [] => best
  | best, p :: ps => if best.2 < p.2 then pickFirstMax p ps else pickFirstMax best ps

/-- Model of `Counter(l).most_common(1)[0][0]` guarded by `if not counter`: the most
frequent value of `l`, ties resolved in favour of the value first inserted
into the counter; `none` when `l` is empty. -/
def mostCommon1 {α : Type} [DecidableEq α] (l : List α) : Option α :=
  match counterItems l with
  | [] => none
  | p :: ps => some (pickFirstMax p ps).1

/-- Model of `CompetitionConfig` (competition_config.py lines 8-14), already
validated. -/
structure CompetitionConfig where
  competition_id : String
  category : String
  evaluation_times : List String
  dataset_hf_repo : String
  dataset_hf_filename : String
  dataset_hf_repo_type : String
deriving DecidableEq, Repr

/-- Model of `self.last_competitions_announcements`: a Python dict from competition
id to the last announced occurrence, as an insertion-ordered association
list. -/
def Ledger : Type := List (String × Datetime)

instance : DecidableEq Ledger := inferInstanceAs (DecidableEq (List (String × Datetime)))

/-- Model of `dict.get(k, None)`. -/
def ledgerGet (l : Ledger) (k : String) : Option Datetime :=
  match l with
  | [] => none
  | p :: ps => if p.1 = k then some p.2 else ledgerGet ps k

/-- Model of `dict[k] = v`: overwrite the entry in place, else append. -/
def ledgerSet (l : Ledger) (k : String) (v : Datetime) : Ledger :=
  match l with
  | [] => [(k, v)]
  | p :: ps => if p.1 = k then (k, v) :: ps else p :: ledgerSet ps k v

/-- The external collaborators of one `announce_competition_results` call:
the wandb query result (`none` models `runs is None`) and the outcome of
the Discord guild/channel lookups and of `channel.send`. -/
structure Env where
  runsResult : Option (List Run)
  guildFound : Bool
  channelFound : Bool
  sendOk : Bool

/-- Model of `DiscordAnnouncementData` (bot.py lines 29-35).  `score` is the exact
number of hundredths of the float score (see the module docstring). -/
structure DiscordAnnouncementData where
  competition_id : String
  competition_date : Datetime
  dataset_size : Int
  tested_models_amount : Nat
  winning_hotkey : String
  score : Int
deriving DecidableEq, Repr

/-- The first scan of `get_competition_data` (bot.py lines 121-130): one
pass over every summary item of every run, counting `score` keys as tested
models (`continue` skips the rest of that item) and collecting every
`winning_hotkey` value in iteration order. -/
def collectVotes (runs : List Run) : Nat × List PyVal :=
  runs.foldl
    (fun acc run => run.foldl
      (fun acc p =>
        if p.1 = "score" then (acc.1 + 1, acc.2)
        else if p.1 = "winning_hotkey" then (acc.1, acc.2 ++ [p.2])
        else acc)
      acc)
    (0, [])

/-- The second scan (bot.py lines 141-145): `winner_run = run` fires for
every run holding a `miner_hotkey` item equal to the winner (the `break`
only leaves the inner loop over summary items), so the last matching run
is kept; `none` means `winner_run` was never assigned. -/
def findWinnerRun (runs : List Run) (wh : PyVal) : Option Run :=
  runs.foldl
    (fun acc run =>
      if run.any (fun p => p.1 = "miner_hotkey" ∧ p.2 = wh) then some run else acc)
    none

/-- The extraction loop (bot.py lines 153-158): repeated assignment keeps
the value of the last matching summary item; `none` means the local was
never assigned. -/
def extractLast (run : Run) (k : String) : Option PyVal :=
  run.foldl (fun acc p => if p.1 = k then some p.2 else acc) none

/-- pydantic coercion into the `int` field `dataset_size`. -/
def pyToInt : PyVal → Option Int
  | .int n => some n
  | .num h => if h % 100 = 0 then some (h / 100) else none
  | .str _ => none

/-- pydantic coercion into the `float` field `score` (in hundredths). -/
def pyToNum : PyVal → Option Int
  | .num h => some h
  | .int n => some (n * 100)
  | .str _ => none

/-- pydantic validation of the `str` field `winning_hotkey`. -/
def pyToStr : PyVal → Option String
  | .str s => some s
  | _ => none

/-- Model of `DiscordAnnouncementData(...)` construction (bot.py lines 162-167).
Python evaluates the keyword arguments first: reading the never-assigned
locals `dataset_size` / `score` raises `UnboundLocalError`; then pydantic
validates the field types. -/
def mkAnnouncementData (cid : String) (date : Datetime) (ds : Option PyVal)
    (tm : Nat) (wh : PyVal) (sc : Option PyVal) :
    Except PyErr DiscordAnnouncementData :=
  match ds with
  | none => .error (.unboundLocal "dataset_size")
  | some dsv =>
    match sc with
    | none => .error (.unboundLocal "score")
    | some scv =>
      match pyToInt dsv, pyToStr wh, pyToNum scv with
      | some dsi, some whs, some sch =>
        .ok ⟨cid, date, dsi, tm, whs, sch⟩
      | _, _, _ => .error .validationError

deriving instance DecidableEq for Except

/-- What one call of `get_competition_data` (bot.py lines 94-168) did:
its return value or exception, the ledger afterwards, and whether the
wandb query (line 116) was reached. -/
structure GCDResult where
  result : Except PyErr (Option DiscordAnnouncementData)
  ledger : Ledger
  queried : Bool
deriving DecidableEq

/-- Model of `DiscordBot.get_competition_data` (bot.py lines 94-168): resolve the
occurrence, skip if it equals the recorded announcement, query the runs,
tally votes, pick the winner by `Counter.most_common(1)`, re-scan for the
winner's run, extract its fields, record the occurrence in the ledger
(line 160 — before the announcement object is built), and build the
announcement. -/
def get_competition_data (comp : CompetitionConfig) (now : Datetime)
    (env : Env) (ledger : Ledger) : GCDResult :=
  match get_latest_executed_competition comp.evaluation_times now with
  | .error e => ⟨.error e, ledger, false⟩
  | .ok latest =>
    if ledgerGet ledger comp.competition_id = some latest then
      ⟨.ok none, ledger, false⟩
    else
      match env.runsResult with
      | none => ⟨.ok none, ledger, true⟩
      | some runs =>
        let tally := collectVotes runs
        match mostCommon1 tally.2 with
        | none => ⟨.ok none, ledger, true⟩
        | some wh =>
          match findWinnerRun runs wh with
          | none => ⟨.error (.unboundLocal "winner_run"), ledger, true⟩
          | some wrun =>
            let ds := extractLast wrun "tested_entries"
            let sc := extractLast wrun "score"
            let ledger2 := ledgerSet ledger comp.competition_id latest
            match mkAnnouncementData comp.competition_id latest ds tally.1 wh sc with
            | .error e => ⟨.error e, ledger2, true⟩
            | .ok d => ⟨.ok (some d), ledger2, true⟩

/-- Fuel-indexed helper for `natChars` (the fuel keeps the recursion
structural; `natChars` always supplies enough fuel). -/
def natCharsF : Nat → Nat → List Char
  | 0, _ => []
  | fuel + 1, n =>
    if n < 10 then [Char.ofNat (48 + n)]
    else natCharsF fuel (n / 10) ++ [Char.ofNat (48 + n % 10)]

/-- Decimal digits of a natural number, as Python `str` renders it. -/
def natChars (n : Nat) : List Char := natCharsF (n + 1) n

/-- Python `str` of an `int`: optional minus sign, then the digits. -/
def intChars (i : Int) : List Char :=
  (if i < 0 then ['-'] else []) ++ natChars i.natAbs

/-- strftime zero-padding to two places (`%m`, `%d`, `%H`, `%M`). -/
def pad2Chars (n : Nat) : List Char :=
  if n < 10 then '0' :: natChars n else natChars n

/-- strftime zero-padding to four places (`%Y`). -/
def pad4Chars (n : Nat) : List Char :=
  if n < 10 then '0' :: '0' :: '0' :: natChars n
  else if n < 100 then '0' :: '0' :: natChars n
  else if n < 1000 then '0' :: natChars n
  else natChars n

/-- Model of `competition_date.strftime('%Y.%m.%d %H:%M UTC')` (bot.py line 173). -/
def formatDate (t : Datetime) : String :=
  String.mk (pad4Chars t.year ++ '.' :: pad2Chars t.month ++ '.' :: pad2Chars t.day
    ++ ' ' :: pad2Chars t.hour ++ ':' :: pad2Chars t.minute ++ [' ', 'U', 'T', 'C'])

/-- Model of `f"{score:.2f}"` on the exact hundredths model of the score: sign,
integer part, dot, exactly two fractional digits. -/
def formatScore2Chars (h : Int) : List Char :=
  (if h < 0 then ['-'] else []) ++ natChars (h.natAbs / 100)
    ++ '.' :: pad2Chars (h.natAbs % 100)

/-- Model of `DiscordBot.create_discord_message` (bot.py lines 170-179): the exact
f-string, with the number renderings spelt out. -/
def create_discord_message (d : DiscordAnnouncementData) : String :=
  "# Competition results\n\n**" ++ d.competition_id ++ "**  - `"
    ++ formatDate d.competition_date ++ "`\nDataset size: "
    ++ String.mk (intChars d.dataset_size) ++ "\n\nTested models - "
    ++ String.mk (natChars d.tested_models_amount) ++ "\n\nWinning hotkey - "
    ++ d.winning_hotkey ++ "\n\nScore: **"
    ++ String.mk (formatScore2Chars d.score) ++ "**"

/-- Model of `DiscordBot.send_message_to_channel` (bot.py lines 214-221) together
with `_get_guild_or_raise`: raises `ValueError` when the guild or the
channel named `channel_name` is missing, then sends.  On success it
reports the channel name and text actually handed to `channel.send`. -/
def send_message_to_channel (env : Env) (channel_name : String)
    (message : String) : Except PyErr (String × String) :=
  if env.guildFound then
    if env.channelFound then
      if env.sendOk then .ok (channel_name, message) else .error .httpError
    else .error .valueError
  else .error .valueError

/-- What one call of `announce_competition_results` did: its outcome, the
ledger afterwards, and the channel/text pair delivered (if any). -/
structure AnnResult where
  result : Except PyErr Unit
  ledger : Ledger
  delivered : Option (String × String)
deriving DecidableEq

/-- Model of `DiscordBot.announce_competition_results` (bot.py lines 181-186):
aggregate, return silently on `None`, compose, send to the literal
channel name `"discord-bot-test"`. -/
def announce_competition_results (comp : CompetitionConfig) (now : Datetime)
    (env : Env) (ledger : Ledger) : AnnResult :=
  let g := get_competition_data comp now env ledger
  match g.result with
  | .error e => ⟨.error e, g.ledger, none⟩
  | .ok none => ⟨.ok (), g.ledger, none⟩
  | .ok (some d) =>
    let message := create_discord_message d
    match send_message_to_channel env "discord-bot-test" message with
    | .ok pair => ⟨.ok (), g.ledger, some pair⟩
    | .error e => ⟨.error e, g.ledger, none⟩

/-- The announcement loop of `update_config_and_announce_results`
(bot.py lines 86-92).  The `try` block wraps the whole `for`, so the first
competition whose announcement raises ends the loop (the exception is
logged by the surrounding handler); the returned list records which
competitions were attempted, in order. -/
def announceSweep (comps : List CompetitionConfig) (now : Datetime)
    (envf : String → Env) (ledger : Ledger) : Ledger × List String :=
  match comps with
  | [] => (ledger, [])
  | c :: cs =>
    let a := announce_competition_results c now (envf c.competition_id) ledger
    match a.result with
    | .error _ => (a.ledger, [c.competition_id])
    | .ok _ =>
      let r := announceSweep cs now envf a.ledger
      (r.1, c.competition_id :: r.2)

/-- One entry of the remote JSON configuration document, before pydantic
validation: each expected field either absent or a raw value. -/
structure RawEntry where
  competition_id : Option String
  category : Option String
  evaluation_times : Option (List String)
  dataset_hf_repo : Option String
  dataset_hf_filename : Option String
  dataset_hf_repo_type : Option String
deriving DecidableEq, Repr

/-- pydantic validation of one `CompetitionConfig(**competition)`
(competition_config.py lines 8-14 and 31): every field present, the
strings non-empty (`min_length=1`) and the time list non-empty. -/
def validateEntry (e : RawEntry) : Except PyErr CompetitionConfig :=
  match e.competition_id, e.category, e.evaluation_times,
      e.dataset_hf_repo, e.dataset_hf_filename, e.dataset_hf_repo_type with
  | some cid, some cat, some ets, some r, some f, some k =>
    if cid.length ≥ 1 ∧ cat.length ≥ 1 ∧ ets.length ≥ 1
        ∧ r.length ≥ 1 ∧ f.length ≥ 1 ∧ k.length ≥ 1 then
      .ok ⟨cid, cat, ets, r, f, k⟩
    else .error .validationError
  | _, _, _, _, _, _ => .error .validationError

/-- Model of `CompetitionConfigManager.get_competition_configs`
(competition_config.py lines 27-36): validate each entry in order,
re-raising on the first failure. -/
def get_competition_configs (entries : List RawEntry) :
    Except PyErr (List CompetitionConfig) :=
  mapExcept validateEntry entries

/-- The competition registry: `self.competition_configs`.  In
`__init__` (line 25) the attribute is only annotated, never assigned, so
`none` models the unset attribute and `some cfgs` an assigned one. -/
def Registry : Type := Option (List CompetitionConfig)

instance : DecidableEq Registry :=
  inferInstanceAs (DecidableEq (Option (List CompetitionConfig)))

/-- The manager state right after `CompetitionConfigManager.__init__`. -/
def initialRegistry : Registry := none

/-- The bot state right after `DiscordBot.__init__` (bot.py line 47):
`self.last_competitions_announcements = {}`. -/
def initialLedger : Ledger := []

/-- Model of `CompetitionConfigManager.load_config_from_remote_repo`
(competition_config.py lines 38-55): on a 200 response, parse the body
and validate; `self.competition_configs` is assigned only when both
succeed.  Any other status raises `ValueError`.  The HTTP response is
modelled as the status code plus the result of `json.loads` on the
body. -/
def load_config_from_remote_repo (registry : Registry) (status : Nat)
    (body : Except Unit (List RawEntry)) : Except PyErr Unit × Registry :=
  if status = 200 then
    match body with
    | .error _ => (.error .jsonError, registry)
    | .ok entries =>
      match get_competition_configs entries with
      | .error e => (.error e, registry)
      | .ok cfgs => (.ok (), some cfgs)
  else (.error .valueError, registry)

/-- Phase B of `update_config_and_announce_results` (bot.py lines 86-92)
as it depends on the registry attribute: iterating
`self.config_manager.competition_configs` raises `AttributeError` when the
attribute was never assigned. -/
def sweepPhaseB (registry : Registry) (now : Datetime) (envf : String → Env)
    (ledger : Ledger) : Except PyErr (Ledger × List String) :=
  match registry with
  | none => .error .attributeError
  | some comps => .ok (announceSweep comps now envf ledger)

/-- Model of `DiscordBot.update_config_and_announce_results` (bot.py lines 74-92):
phase A refreshes the registry with every exception caught and logged;
phase B runs the announcement sweep with every exception caught and
logged.  Returns the registry, the ledger, and the attempted
competitions. -/
def update_config_and_announce_results (registry : Registry) (status : Nat)
    (body : Except Unit (List RawEntry)) (now : Datetime)
    (envf : String → Env) (ledger : Ledger) :
    Registry × Ledger × List String :=
  let a := load_config_from_remote_repo registry status body
  match sweepPhaseB a.2 now envf ledger with
  | .error _ => (a.2, ledger, [])
  | .ok r => (a.2, r.1, r.2)

/-- A configured competition used for concrete runs of the pipeline. -/
def comp0 : CompetitionConfig :=
  ⟨"melanoma-1", "skin", ["09:00", "15:00"], "repo", "data.json", "dataset"⟩

/-- A competition whose schedule contains a malformed time slot. -/
def compBad : CompetitionConfig :=
  ⟨"comp-bad", "skin", ["bad"], "repo", "data.json", "dataset"⟩

/-- A concrete "now": 2024-05-20 15:05 UTC. -/
def now0 : Datetime := ⟨2024, 5, 20, 15, 5⟩

/-- The occurrence resolved from `comp0`'s schedule at `now0`. -/
def occ0 : Datetime := ⟨2024, 5, 20, 15, 0⟩

/-- A validator run voting for `H1`. -/
def runV1 : Run := [("winning_hotkey", PyVal.str "H1"), ("score", PyVal.num 91)]

/-- A validator run voting for `H2`. -/
def runV2 : Run := [("winning_hotkey", PyVal.str "H2"), ("score", PyVal.num 80)]

/-- The winner's own run: carries `miner_hotkey`, dataset size and score. -/
def runW : Run := [("miner_hotkey", PyVal.str "H1"), ("tested_entries", PyVal.int 500),
  ("score", PyVal.num 87), ("winning_hotkey", PyVal.str "H1")]

/-- Collaborators for a fully successful announcement of `comp0`. -/
def env0 : Env := ⟨some [runV1, runV2, runW], true, true, true⟩

/-- Same query result as `env0`, but the channel lookup fails. -/
def envNoChannel : Env := ⟨some [runV1, runV2, runW], true, false, true⟩

/-- The announcement data aggregated from `env0`'s runs at `now0`. -/
def d0 : DiscordAnnouncementData := ⟨"melanoma-1", occ0, 500, 3, "H1", 87⟩

/-- A bare vote for `H1` with no other fields. -/
def runV3 : Run := [("winning_hotkey", PyVal.str "H1")]

/-- A run of the winner with dataset size 100. -/
def runM1 : Run := [("miner_hotkey", PyVal.str "H1"), ("tested_entries", PyVal.int 100),
  ("score", PyVal.num 50)]

/-- A second run of the same winner with dataset size 200. -/
def runM2 : Run := [("miner_hotkey", PyVal.str "H1"), ("tested_entries", PyVal.int 200),
  ("score", PyVal.num 90)]

/-- Collaborators where two distinct runs match the winning hotkey. -/
def envTwoMatches : Env := ⟨some [runV3, runM1, runM2], true, true, true⟩

/-- Collaborators where the vote winner appears as nobody's
`miner_hotkey`. -/
def envNoWinnerRun : Env :=
  ⟨some [[("winning_hotkey", PyVal.str "A"), ("score", PyVal.num 50)]], true, true, true⟩

/-- Collaborators realising the spec's tie scenario: votes `[A, B]`, and a
run of miner `A` carrying the result fields. -/
def envTie : Env :=
  ⟨some [[("winning_hotkey", PyVal.str "A")], [("winning_hotkey", PyVal.str "B")],
    [("miner_hotkey", PyVal.str "A"), ("tested_entries", PyVal.int 10),
      ("score", PyVal.num 42)]], true, true, true⟩

/-- A winner run lacking the `tested_entries` field. -/
def envMissingField : Env :=
  ⟨some [[("winning_hotkey", PyVal.str "H1")],
    [("miner_hotkey", PyVal.str "H1"), ("score", PyVal.num 42)]], true, true, true⟩

/-- Modelled from the spec: "Re-scan `records` to find the first record
whose winner-identifying field equals the selected winner."  Stated only
to compare against the code's `findWinnerRun`. -/
def firstWinnerRunSpec (runs : List Run) (wh : PyVal) : Option Run :=
  runs.find? (fun run => run.any (fun p => p.1 = "miner_hotkey" ∧ p.2 = wh))

/-- Key-level view of `pickFirstMax` over counter items whose second
component is the key's count. -/
def pickKeyMax {α : Type} (c : α → Nat) : α → List α → α
  | best, [] => best
  | best, k :: ks => if c best < c k then pickKeyMax c k ks else pickKeyMax c best ks

/-- The segments `ps` occur in the text `s`, in this order, without
overlap: the spec-side reading of "emits the fields in the order". -/
def fieldsAppear : List (List Char) → List Char → Prop
  | [], _ => True
  | p :: ps, s => ∃ pre post, s = pre ++ p ++ post ∧ fieldsAppear ps post

theorem mapExcept_error {α β : Type} (f : α → Except PyErr β) :
    ∀ (l : List α) (e : PyErr), mapExcept f l = .error e → ∃ a ∈ l, f a = .error e := by
  intro l
  induction l with
  | nil => intro e h; simp [mapExcept] at h
  | cons a as ih =>
    intro e h
    unfold mapExcept at h
    cases hfa : f a with
    | error e2 =>
      rw [hfa] at h
      injection h with he
      exact ⟨a, List.mem_cons_self a as, by rw [hfa, he]⟩
    | ok b =>
      rw [hfa] at h
      cases hms : mapExcept f as with
      | error e2 =>
        rw [hms] at h
        injection h with he
        obtain ⟨x, hx, hfx⟩ := ih e2 hms
        exact ⟨x, List.mem_cons_of_mem a hx, by rw [hfx, he]⟩
      | ok bs =>
        rw [hms] at h
        simp at h

theorem dedupFOF_fuel {α : Type} [DecidableEq α] :
    ∀ (n m : Nat) (l : List α), l.length ≤ n → l.length ≤ m →
      dedupFOF n l = dedupFOF m l := by
  intro n
  induction n with
  | zero =>
    intro m l hn _
    cases l with
    | nil => cases m <;> rfl
    | cons a as => simp at hn
  | succ n ih =>
    intro m l hn hm
    cases l with
    | nil => cases m <;> rfl
    | cons a as =>
      cases m with
      | zero => simp at hm
      | succ m =>
        simp only [dedupFOF]
        have hlen : (as.filter (fun x => x ≠ a)).length ≤ as.length :=
          List.length_filter_le _ _
        simp only [List.length_cons, Nat.succ_le_succ_iff] at hn hm
        rw [ih _ _ (le_trans hlen hn) (le_trans hlen hm)]

theorem dedupFO_nil {α : Type} [DecidableEq α] : dedupFO ([] : List α) = [] := rfl

theorem dedupFO_cons {α : Type} [DecidableEq α] (a : α) (as : List α) :
    dedupFO (a :: as) = a :: dedupFO (as.filter (fun x => x ≠ a)) := by
  show dedupFOF (a :: as).length (a :: as) = _
  simp only [List.length_cons, dedupFOF]
  rw [dedupFOF_fuel as.length (as.filter (fun x => x ≠ a)).length
        (as.filter (fun x => x ≠ a)) (List.length_filter_le _ _) le_rfl]
  rfl

theorem natCharsF_fuel : ∀ (f g n : Nat), n < f → n < g →
    natCharsF f n = natCharsF g n := by
  intro f
  induction f with
  | zero => intro g n hf; omega
  | succ f ih =>
    intro g n hf hg
    cases g with
    | zero => omega
    | succ g =>
      simp only [natCharsF]
      by_cases h10 : n < 10
      · simp [h10]
      · simp only [if_neg h10]
        have hdiv : n / 10 < n := Nat.div_lt_self (by omega) (by omega)
        rw [ih g (n / 10) (by omega) (by omega)]

theorem natChars_eq (n : Nat) :
    natChars n = if n < 10 then [Char.ofNat (48 + n)]
      else natChars (n / 10) ++ [Char.ofNat (48 + n % 10)] := by
  show natCharsF (n + 1) n = _
  by_cases h10 : n < 10
  · simp [natCharsF, h10]
  · simp only [natCharsF, if_neg h10]
    have hdiv : n / 10 < n := Nat.div_lt_self (by omega) (by omega)
    rw [natCharsF_fuel n (n / 10 + 1) (n / 10) (by omega) (by omega)]
    rfl

theorem ledgerGet_ledgerSet (l : Ledger) (k : String) (v : Datetime) :
    ledgerGet (ledgerSet l k v) k = some v := by
  induction l with
  | nil => simp [ledgerSet, ledgerGet]
  | cons p ps ih =>
    by_cases hk : p.1 = k
    · simp [ledgerSet, ledgerGet, hk]
    · simp [ledgerSet, ledgerGet, hk, ih]

theorem mkAnnouncementData_error (cid : String) (date : Datetime)
    (ds : Option PyVal) (tm : Nat) (wh : PyVal) (sc : Option PyVal) (e : PyErr)
    (h : mkAnnouncementData cid date ds tm wh sc = .error e) :
    e = .unboundLocal "dataset_size" ∨ e = .unboundLocal "score"
      ∨ e = .validationError := by
  unfold mkAnnouncementData at h
  rcases ds with _ | dsv
  · simp at h; simp [h]
  · rcases sc with _ | scv
    · simp at h; simp [h]
    · rcases hc : (pyToInt dsv, pyToStr wh, pyToNum scv) with ⟨a, b, c⟩
      simp only [hc] at h
      rcases a with _ | dsi <;> rcases b with _ | whs <;> rcases c with _ | sch <;>
        simp_all

theorem mkAnnouncementData_ok (cid : String) (date : Datetime)
    (ds : Option PyVal) (tm : Nat) (wh : PyVal) (sc : Option PyVal)
    (d : DiscordAnnouncementData)
    (h : mkAnnouncementData cid date ds tm wh sc = .ok d) :
    d.competition_id = cid ∧ d.competition_date = date ∧
      d.tested_models_amount = tm := by
  unfold mkAnnouncementData at h
  rcases ds with _ | dsv
  · simp at h
  · rcases sc with _ | scv
    · simp at h
    · rcases hc : (pyToInt dsv, pyToStr wh, pyToNum scv) with ⟨a, b, c⟩
      simp only [hc] at h
      rcases a with _ | dsi <;> rcases b with _ | whs <;> rcases c with _ | sch <;>
        simp_all
      rcases h with ⟨rfl⟩
      exact ⟨rfl, rfl, rfl⟩

/-- Exhaustive description of one `get_competition_data` call: either the
schedule resolution raised (nothing else happened); or the occurrence was
already announced (skip before the query); or the query was reached and
the call ended in one of four ways — no outcome with the ledger untouched,
`UnboundLocalError` on `winner_run` with the ledger untouched, a field
error raised after line 160's ledger write, or a built announcement, also
after the ledger write. -/
theorem gcd_master (comp : CompetitionConfig) (now : Datetime) (env : Env)
    (ledger : Ledger) :
    (∃ e, get_latest_executed_competition comp.evaluation_times now = .error e ∧
      get_competition_data comp now env ledger = ⟨.error e, ledger, false⟩) ∨
    (∃ occ, get_latest_executed_competition comp.evaluation_times now = .ok occ ∧
      ((ledgerGet ledger comp.competition_id = some occ ∧
        get_competition_data comp now env ledger = ⟨.ok none, ledger, false⟩) ∨
      (ledgerGet ledger comp.competition_id ≠ some occ ∧
        (get_competition_data comp now env ledger).queried = true ∧
        (((get_competition_data comp now env ledger).result = .ok none ∧
            (get_competition_data comp now env ledger).ledger = ledger) ∨
          ((get_competition_data comp now env ledger).result =
              .error (.unboundLocal "winner_run") ∧
            (get_competition_data comp now env ledger).ledger = ledger) ∨
          (∃ e, (get_competition_data comp now env ledger).result = .error e ∧
            (e = .unboundLocal "dataset_size" ∨ e = .unboundLocal "score" ∨
              e = .validationError) ∧
            (get_competition_data comp now env ledger).ledger =
              ledgerSet ledger comp.competition_id occ) ∨
          (∃ d, (get_competition_data comp now env ledger).result = .ok (some d) ∧
            d.competition_id = comp.competition_id ∧ d.competition_date = occ ∧
            (get_competition_data comp now env ledger).ledger =
              ledgerSet ledger comp.competition_id occ))))) := by
  cases hres : get_latest_executed_competition comp.evaluation_times now with
  | error e =>
    left
    exact ⟨e, rfl, by simp [get_competition_data, hres]⟩
  | ok occ =>
    right
    refine ⟨occ, rfl, ?_⟩
    by_cases hl : ledgerGet ledger comp.competition_id = some occ
    · left
      exact ⟨hl, by simp [get_competition_data, hres, hl]⟩
    · right
      refine ⟨hl, ?_⟩
      cases hr : env.runsResult with
      | none => simp [get_competition_data, hres, hl, hr]
      | some runs =>
        cases hmc : mostCommon1 (collectVotes runs).2 with
        | none => simp [get_competition_data, hres, hl, hr, hmc]
        | some wh =>
          cases hfw : findWinnerRun runs wh with
          | none => simp [get_competition_data, hres, hl, hr, hmc, hfw]
          | some wrun =>
            cases hmk : mkAnnouncementData comp.competition_id occ
                (extractLast wrun "tested_entries") (collectVotes runs).1 wh
                (extractLast wrun "score") with
            | error e =>
              refine ⟨by simp [get_competition_data, hres, hl, hr, hmc, hfw, hmk], ?_⟩
              right; right; left
              exact ⟨e, by simp [get_competition_data, hres, hl, hr, hmc, hfw, hmk],
                mkAnnouncementData_error _ _ _ _ _ _ _ hmk,
                by simp [get_competition_data, hres, hl, hr, hmc, hfw, hmk]⟩
            | ok d =>
              refine ⟨by simp [get_competition_data, hres, hl, hr, hmc, hfw, hmk], ?_⟩
              right; right; right
              have hd := mkAnnouncementData_ok _ _ _ _ _ _ _ hmk
              exact ⟨d, by simp [get_competition_data, hres, hl, hr, hmc, hfw, hmk],
                hd.1, hd.2.1,
                by simp [get_competition_data, hres, hl, hr, hmc, hfw, hmk]⟩

theorem todaySlot_error (now : Datetime) (a : String) (e : PyErr)
    (h : todaySlot now a = .error e) : e = .parseError := by
  unfold todaySlot at h
  cases hs : strptimeHM a with
  | none => simp only [hs] at h; injection h with he; exact he.symm
  | some hm => simp only [hs] at h; exact absurd h (by simp)

theorem yesterdaySlot_error (now : Datetime) (a : String) (e : PyErr)
    (h : yesterdaySlot now a = .error e) :
    e = .parseError ∨ e = .valueError := by
  unfold yesterdaySlot at h
  cases hs : strptimeHM a with
  | none => simp only [hs] at h; injection h with he; exact Or.inl he.symm
  | some hm =>
    simp only [hs] at h
    by_cases hc : 1 ≤ now.day - 1 ∧ now.day - 1 ≤ daysInMonth now.year now.month
    · rw [if_pos hc] at h; exact absurd h (by simp)
    · rw [if_neg hc] at h; injection h with he; exact Or.inr he.symm

theorem get_latest_executed_competition_error (schedule : List String)
    (now : Datetime) (e : PyErr)
    (h : get_latest_executed_competition schedule now = .error e) :
    e = .parseError ∨ e = .valueError := by
  unfold get_latest_executed_competition at h
  cases h1 : mapExcept (todaySlot now) schedule with
  | error e1 =>
    simp only [h1] at h
    injection h with he
    subst he
    obtain ⟨a, _, hfa⟩ := mapExcept_error _ _ _ h1
    exact Or.inl (todaySlot_error now a _ hfa)
  | ok times =>
    simp only [h1] at h
    cases h2 : listMax (times.filter (fun t => t.le now)) with
    | some t => simp only [h2] at h; exact absurd h (by simp)
    | none =>
      simp only [h2] at h
      cases h3 : mapExcept (yesterdaySlot now) schedule with
      | error e2 =>
        simp only [h3] at h
        injection h with he
        subst he
        obtain ⟨a, _, hfa⟩ := mapExcept_error _ _ _ h3
        exact yesterdaySlot_error now a _ hfa
      | ok ytimes =>
        simp only [h3] at h
        cases h4 : listMax ytimes with
        | some t => simp only [h4] at h; exact absurd h (by simp)
        | none =>
          simp only [h4] at h
          injection h with he
          exact Or.inr he.symm

/-- C2.  For a given competition identifier, at most one announcement per
distinct occurrence timestamp, enforced solely by the ledger comparison:
when the ledger already holds the resolved occurrence the call returns
`None` before reaching the wandb query and leaves everything unchanged;
with no entry (first sweep ever for the id) or a different stored
occurrence the occurrence counts as new and the query is reached; and any
produced announcement leaves its occurrence in the ledger, so the same
occurrence is skipped from then on. -/
theorem c2_at_most_once_per_occurrence (comp : CompetitionConfig)
    (now : Datetime) (env : Env) (ledger : Ledger) (occ : Datetime)
    (h : get_latest_executed_competition comp.evaluation_times now = .ok occ) :
    (ledgerGet ledger comp.competition_id = some occ →
      get_competition_data comp now env ledger = ⟨.ok none, ledger, false⟩)
    ∧ (ledgerGet ledger comp.competition_id = none →
      (get_competition_data comp now env ledger).queried = true)
    ∧ (∀ occ2, ledgerGet ledger comp.competition_id = some occ2 → occ2 ≠ occ →
      (get_competition_data comp now env ledger).queried = true)
    ∧ (∀ d, (get_competition_data comp now env ledger).result = .ok (some d) →
      ledgerGet (get_competition_data comp now env ledger).ledger
        comp.competition_id = some occ) := by
  rcases gcd_master comp now env ledger with ⟨e, he, _⟩ | ⟨occ', hres, hcase⟩
  · rw [h] at he; exact absurd he (by simp)
  · rw [h] at hres
    injection hres with hoe
    subst hoe
    refine ⟨?_, ?_, ?_, ?_⟩
    · intro hl
      rcases hcase with ⟨_, hg⟩ | ⟨hne, _⟩
      · exact hg
      · exact absurd hl hne
    · intro hl
      rcases hcase with ⟨hsome, _⟩ | ⟨_, hq, _⟩
      · rw [hl] at hsome; exact absurd hsome (by simp)
      · exact hq
    · intro occ2 hl hne
      rcases hcase with ⟨hsome, _⟩ | ⟨_, hq, _⟩
      · rw [hl] at hsome
        injection hsome with h2
        exact absurd h2 hne
      · exact hq
    · intro d hd
      rcases hcase with ⟨_, hg⟩ | ⟨_, _, hout⟩
      · rw [hg] at hd; exact absurd hd (by simp)
      · rcases hout with ⟨hres1, _⟩ | ⟨hres2, _⟩ | ⟨e, hres3, _, _⟩ |
          ⟨d', hres4, _, hdate, hledg⟩
        · rw [hd] at hres1; exact absurd hres1 (by simp)
        · rw [hd] at hres2; exact absurd hres2 (by simp)
        · rw [hd] at hres3; exact absurd hres3 (by simp)
        · rw [hd] at hres4
          injection hres4 with h4
          injection h4 with h5
          subst h5
          rw [hledg]
          exact ledgerGet_ledgerSet ledger comp.competition_id occ

/-- Witness for C2 at concrete inputs: with `occ0` recorded for
`comp0`, the sweep at `now0` resolves `occ0` again and skips without
querying. -/
theorem c2_witness :
    get_competition_data comp0 now0 env0 [("melanoma-1", occ0)] =
      ⟨.ok none, [("melanoma-1", occ0)], false⟩ :=
  (c2_at_most_once_per_occurrence comp0 now0 env0 [("melanoma-1", occ0)]
    occ0 rfl).1 rfl

/-- C1, counterexample.  The claim says a delivery failure leaves the
stored last-announced occurrence unchanged.  At `now0`, with the runs of
`env0` but a missing channel, delivery fails with `ValueError`, nothing is
delivered — yet the ledger was already overwritten with `occ0` (bot.py
line 160 runs inside `get_competition_data`, before
`send_message_to_channel` is ever called). -/
theorem c1_delivery_failure_still_updates_ledger :
    (announce_competition_results comp0 now0 envNoChannel initialLedger).result =
      .error .valueError
    ∧ (announce_competition_results comp0 now0 envNoChannel initialLedger).delivered =
      none
    ∧ (announce_competition_results comp0 now0 envNoChannel initialLedger).ledger =
      [("melanoma-1", occ0)]
    ∧ [("melanoma-1", occ0)] ≠ initialLedger :=
  ⟨rfl, rfl, rfl, by decide⟩

/-- C1, amended.  The ledger write happens at the end of aggregation, not
after delivery: failures up to and including the winner-record re-scan
(schedule errors, already-announced skip, no runs, no votes, untraceable
winner) leave the ledger unchanged, but once the winner's run is found the
ledger is overwritten before the announcement object is even built — so
missing-field failures and delivery failures leave the occurrence
recorded and it is not retried.  Delivery itself never touches the
ledger. -/
theorem c1_ledger_update_order (comp : CompetitionConfig) (now : Datetime)
    (env : Env) (ledger : Ledger) :
    ((get_competition_data comp now env ledger).result = .ok none →
      (get_competition_data comp now env ledger).ledger = ledger)
    ∧ (∀ e, (get_competition_data comp now env ledger).result = .error e →
      (e = .parseError ∨ e = .valueError ∨ e = .unboundLocal "winner_run") →
      (get_competition_data comp now env ledger).ledger = ledger)
    ∧ (∀ d, (get_competition_data comp now env ledger).result = .ok (some d) →
      (get_competition_data comp now env ledger).ledger =
        ledgerSet ledger comp.competition_id d.competition_date)
    ∧ ((∃ e, (get_competition_data comp now env ledger).result = .error e ∧
        (e = .unboundLocal "dataset_size" ∨ e = .unboundLocal "score" ∨
          e = .validationError)) →
      ∃ occ, (get_competition_data comp now env ledger).ledger =
        ledgerSet ledger comp.competition_id occ)
    ∧ ((announce_competition_results comp now env ledger).ledger =
      (get_competition_data comp now env ledger).ledger) := by
  have hann : (announce_competition_results comp now env ledger).ledger =
      (get_competition_data comp now env ledger).ledger := by
    unfold announce_competition_results
    cases hres : (get_competition_data comp now env ledger).result with
    | error e => simp [hres]
    | ok od =>
      cases od with
      | none => simp [hres]
      | some d =>
        simp only [hres]
        cases hsend : send_message_to_channel env "discord-bot-test"
            (create_discord_message d) with
        | ok pair => simp [hsend]
        | error e => simp [hsend]
  rcases gcd_master comp now env ledger with ⟨e0, he0, hg⟩ | ⟨occ, hres, hcase⟩
  · refine ⟨?_, ?_, ?_, ?_, hann⟩
    · intro hr; rw [hg]
    · intro e hr _; rw [hg]
    · intro d hr; rw [hg] at hr; exact absurd hr (by simp)
    · intro ⟨e, hr, hmem⟩
      rw [hg] at hr
      injection hr with he
      have := get_latest_executed_competition_error _ _ _ he0
      rcases hmem with h1 | h1 | h1 <;> subst h1 <;> rcases this with h2 | h2 <;>
        exact absurd (he.symm.trans h2) (by simp)
  · rcases hcase with ⟨_, hg⟩ | ⟨_, _, hout⟩
    · refine ⟨?_, ?_, ?_, ?_, hann⟩
      · intro _; rw [hg]
      · intro e hr _; rw [hg]
      · intro d hr; rw [hg] at hr; exact absurd hr (by simp)
      · intro ⟨e, hr, _⟩
        rw [hg] at hr; exact absurd hr (by simp)
    · rcases hout with ⟨hres1, hl1⟩ | ⟨hres2, hl2⟩ | ⟨e, hres3, hmem3, hl3⟩ |
        ⟨d', hres4, _, hdate4, hl4⟩
      · refine ⟨fun _ => hl1, ?_, ?_, ?_, hann⟩
        · intro e hr _
          rw [hres1] at hr; exact absurd hr (by simp)
        · intro d hr
          rw [hres1] at hr; exact absurd hr (by simp)
        · intro ⟨e, hr, _⟩
          rw [hres1] at hr; exact absurd hr (by simp)
      · refine ⟨?_, fun _ _ _ => hl2, ?_, ?_, hann⟩
        · intro hr; rw [hres2] at hr; exact absurd hr (by simp)
        · intro d hr; rw [hres2] at hr; exact absurd hr (by simp)
        · intro ⟨e, hr, hmem⟩
          rw [hres2] at hr
          injection hr with he
          rcases hmem with h1 | h1 | h1 <;> rw [h1] at he <;> simp at he
      · refine ⟨?_, ?_, ?_, fun _ => ⟨occ, hl3⟩, hann⟩
        · intro hr; rw [hres3] at hr; exact absurd hr (by simp)
        · intro e2 hr hmem
          rw [hres3] at hr
          injection hr with he
          subst he
          rcases hmem3 with h1 | h1 | h1 <;> subst h1 <;>
            rcases hmem with h2 | h2 | h2 <;> simp at h2
        · intro d hr; rw [hres3] at hr; exact absurd hr (by simp)
      · refine ⟨?_, ?_, ?_, ?_, hann⟩
        · intro hr; rw [hres4] at hr; exact absurd hr (by simp)
        · intro e hr _; rw [hres4] at hr; exact absurd hr (by simp)
        · intro d hr
          rw [hres4] at hr
          injection hr with h4
          injection h4 with h5
          subst h5
          rw [hdate4]
          exact hl4
        · intro ⟨e, hr, _⟩
          rw [hres4] at hr; exact absurd hr (by simp)

/-- Witness for C1 at concrete inputs: the successful aggregation from
`env0` records `occ0` (the resolved occurrence, also the announcement's
date) in the ledger. -/
theorem c1_witness :
    (get_competition_data comp0 now0 env0 initialLedger).ledger =
      ledgerSet initialLedger comp0.competition_id d0.competition_date :=
  (c1_ledger_update_order comp0 now0 env0 initialLedger).2.2.1 d0 rfl

/-- C3 (code_bug it documents).  At 00:30 UTC on 2024-03-01 with a single
daily slot at 09:00, no slot has elapsed today; the code's
`day=current_time.day - 1` asks `datetime.replace` for day 0 and crashes
with `ValueError` instead of returning 2024-02-29 09:00.  The same-day
path (second conjunct) still works. -/
theorem c3_day_rollover_valueerror :
    get_latest_executed_competition ["09:00"] ⟨2024, 3, 1, 0, 30⟩ =
      .error .valueError
    ∧ get_latest_executed_competition ["09:00"] ⟨2024, 3, 1, 10, 0⟩ =
      .ok ⟨2024, 3, 1, 9, 0⟩
    ∧ get_latest_executed_competition ["09:00"] ⟨2024, 3, 2, 3, 0⟩ =
      .ok ⟨2024, 3, 1, 9, 0⟩ :=
  ⟨rfl, rfl, rfl⟩

/-- C6 (code_bug it documents).  With one run voting for `A` and no run
carrying `miner_hotkey`, the scan at bot.py lines 141-145 never assigns
`winner_run`, so line 147's own guard `if winner_run is None` raises
`UnboundLocalError` instead of reaching the designated
winner-record-not-found handling (lines 147-149 log-and-return). -/
theorem c6_winner_search_unboundlocal :
    get_competition_data comp0 now0 envNoWinnerRun initialLedger =
      ⟨.error (.unboundLocal "winner_run"), initialLedger, true⟩ := rfl

/-- C4, counterexample.  With runs `[runV3, runM1, runM2]` where `runM1`
(dataset size 100) and `runM2` (dataset size 200) both carry
`miner_hotkey = H1`, the spec's first-matching record is `runM1`, but the
produced outcome takes its fields from `runM2`: dataset size 200, not
100. -/
theorem c4_first_match_refuted :
    (get_competition_data comp0 now0 envTwoMatches initialLedger).result =
      .ok (some ⟨"melanoma-1", occ0, 200, 2, "H1", 90⟩)
    ∧ firstWinnerRunSpec [runV3, runM1, runM2] (PyVal.str "H1") = some runM1
    ∧ extractLast runM1 "tested_entries" = some (.int 100)
    ∧ (200 : Int) ≠ 100 :=
  ⟨rfl, rfl, rfl, by decide⟩

theorem foldl_pick_last {α : Type} (m : α → Bool) (l : List α) :
    ∀ acc : Option α, l.foldl (fun a r => if m r then some r else a) acc =
      match l.reverse.find? m with
      | some r => some r
      | none => acc := by
  induction l with
  | nil => intro acc; rfl
  | cons x xs ih =>
    intro acc
    simp only [List.foldl_cons, List.reverse_cons, List.find?_append]
    rw [ih (if m x then some x else acc)]
    cases hxs : xs.reverse.find? m with
    | some r => rfl
    | none =>
      cases hmx : m x <;> simp [List.find?, hmx]

/-- C4, amended.  When several records carry the winner's identifier, the
record whose fields feed the outcome is the **last** matching record in
iteration order (the `break` at bot.py line 145 only leaves the inner
loop over summary items, so later runs overwrite `winner_run`). -/
theorem c4_last_matching_run (runs : List Run) (wh : PyVal) :
    findWinnerRun runs wh =
      runs.reverse.find?
        (fun run => run.any (fun p => p.1 = "miner_hotkey" ∧ p.2 = wh)) := by
  unfold findWinnerRun
  rw [foldl_pick_last]
  cases h : runs.reverse.find?
      (fun run => run.any (fun p => p.1 = "miner_hotkey" ∧ p.2 = wh)) <;> rfl

theorem send_message_to_channel_ok (env : Env) (cn m : String)
    (pair : String × String)
    (h : send_message_to_channel env cn m = .ok pair) : pair = (cn, m) := by
  unfold send_message_to_channel at h
  by_cases hg : env.guildFound = true
  · rw [if_pos hg] at h
    by_cases hc : env.channelFound = true
    · rw [if_pos hc] at h
      by_cases hs : env.sendOk = true
      · rw [if_pos hs] at h
        injection h with he
        exact he.symm
      · rw [if_neg hs] at h; exact absurd h (by simp)
    · rw [if_neg hc] at h; exact absurd h (by simp)
  · rw [if_neg hg] at h; exact absurd h (by simp)

/-- C10.  Whatever the competition's identifier, category or schedule, a
delivered announcement always goes to the literal channel name
`"discord-bot-test"` (bot.py line 186). -/
theorem c10_fixed_channel (comp : CompetitionConfig) (now : Datetime)
    (env : Env) (ledger : Ledger) (ch msg : String)
    (h : (announce_competition_results comp now env ledger).delivered =
      some (ch, msg)) : ch = "discord-bot-test" := by
  unfold announce_competition_results at h
  cases hres : (get_competition_data comp now env ledger).result with
  | error e => simp [hres] at h
  | ok od =>
    cases od with
    | none => simp [hres] at h
    | some d =>
      simp only [hres] at h
      cases hsend : send_message_to_channel env "discord-bot-test"
          (create_discord_message d) with
      | error e => simp [hsend] at h
      | ok pair =>
        simp only [hsend] at h
        injection h with he
        have hp := send_message_to_channel_ok env _ _ pair hsend
        exact congrArg Prod.fst (he.symm.trans hp)

/-- Witness for C10 at concrete inputs: `env0`'s successful delivery of
`comp0`'s announcement goes to `"discord-bot-test"`. -/
theorem c10_witness :
    (announce_competition_results comp0 now0 env0 initialLedger).delivered =
      some ("discord-bot-test", create_discord_message d0)
    ∧ "discord-bot-test" = "discord-bot-test" :=
  ⟨rfl, c10_fixed_channel comp0 now0 env0 initialLedger "discord-bot-test"
    (create_discord_message d0) rfl⟩

/-- C7, counterexample.  The sweep over the snapshot `[compBad, comp0]`
stops at `compBad` (its malformed slot `"bad"` raises inside
`get_latest_executed_competition`, and the `try` at bot.py line 86 wraps
the whole `for` loop): `comp0` is never attempted, although the same
sweep over `[comp0]` alone would announce it. -/
theorem c7_isolation_refuted :
    announceSweep [compBad, comp0] now0 (fun _ => env0) initialLedger =
      (initialLedger, ["comp-bad"])
    ∧ announceSweep [comp0] now0 (fun _ => env0) initialLedger =
      ([("melanoma-1", occ0)], ["melanoma-1"])
    ∧ ("melanoma-1" : String) ∉ ["comp-bad"] :=
  ⟨rfl, rfl, by decide⟩

/-- C7, amended.  The sweep attempts competitions in registry order and
the first announcement that raises ends the sweep: the attempted list is
always an initial segment of the snapshot, a failing head is the last
competition attempted (whatever follows it), and a succeeding head is
followed by the sweep of the rest. -/
theorem c7_sweep_stops_at_first_error :
    (∀ (comps : List CompetitionConfig) (now : Datetime) (envf : String → Env)
      (ledger : Ledger), ∃ k, (announceSweep comps now envf ledger).2 =
        (comps.map (fun c => c.competition_id)).take k)
    ∧ (∀ (c : CompetitionConfig) (cs : List CompetitionConfig) (now : Datetime)
      (envf : String → Env) (ledger : Ledger) (e : PyErr),
      (announce_competition_results c now (envf c.competition_id) ledger).result =
        .error e →
      announceSweep (c :: cs) now envf ledger =
        ((announce_competition_results c now (envf c.competition_id) ledger).ledger,
          [c.competition_id]))
    ∧ (∀ (c : CompetitionConfig) (cs : List CompetitionConfig) (now : Datetime)
      (envf : String → Env) (ledger : Ledger),
      (announce_competition_results c now (envf c.competition_id) ledger).result =
        .ok () →
      (announceSweep (c :: cs) now envf ledger).2 =
        c.competition_id :: (announceSweep cs now envf
          (announce_competition_results c now (envf c.competition_id) ledger).ledger).2) := by
  refine ⟨?_, ?_, ?_⟩
  · intro comps now envf
    induction comps with
    | nil => intro ledger; exact ⟨0, rfl⟩
    | cons c cs ih =>
      intro ledger
      unfold announceSweep
      cases hres : (announce_competition_results c now
          (envf c.competition_id) ledger).result with
      | error e =>
        exact ⟨1, by simp [hres]⟩
      | ok u =>
        obtain ⟨k, hk⟩ := ih (announce_competition_results c now
          (envf c.competition_id) ledger).ledger
        exact ⟨k + 1, by simp [hres, hk]⟩
  · intro c cs now envf ledger e h
    simp [announceSweep, h]
  · intro c cs now envf ledger h
    simp [announceSweep, h]

/-- Witness for C7 at concrete inputs: `compBad`'s schedule error ends
the sweep immediately, with only `compBad` attempted. -/
theorem c7_witness :
    (announceSweep [compBad, comp0] now0 (fun _ => env0) initialLedger).2 =
      ["comp-bad"] :=
  congrArg Prod.snd
    (c7_sweep_stops_at_first_error.2.1 compBad [comp0] now0 (fun _ => env0)
      initialLedger .parseError rfl)

/-- C8, counterexample.  The registry does not start empty: after
`__init__` the attribute is unassigned (`initialRegistry = none`), so the
first sweep raises `AttributeError` instead of iterating over zero
competitions — unlike a genuinely empty registry (`some []`), which the
second conjunct shows would sweep cleanly. -/
theorem c8_initial_sweep_refuted :
    sweepPhaseB initialRegistry now0 (fun _ => env0) initialLedger =
      .error .attributeError
    ∧ sweepPhaseB (some []) now0 (fun _ => env0) initialLedger =
      .ok (initialLedger, [])
    ∧ initialRegistry ≠ some [] :=
  ⟨rfl, rfl, by decide⟩

/-- C8, amended.  The registry attribute starts unset (`none`), not
empty; before the first successful fetch the sweep fails with
`AttributeError` (caught by the sweep's handler).  Refresh failures — a
non-200 status, a JSON parse error, or a validation error on any entry —
leave the registry exactly as it was, and the sweep of that cycle then
uses the retained contents; a successful refresh replaces the registry
wholesale. -/
theorem c8_registry_retention (registry : Registry) (status : Nat)
    (body : Except Unit (List RawEntry)) :
    (status ≠ 200 →
      load_config_from_remote_repo registry status body =
        (.error .valueError, registry))
    ∧ (∀ u, status = 200 → body = .error u →
      load_config_from_remote_repo registry status body =
        (.error .jsonError, registry))
    ∧ (∀ entries e, status = 200 → body = .ok entries →
      get_competition_configs entries = .error e →
      load_config_from_remote_repo registry status body = (.error e, registry))
    ∧ (∀ entries cfgs, status = 200 → body = .ok entries →
      get_competition_configs entries = .ok cfgs →
      load_config_from_remote_repo registry status body = (.ok (), some cfgs))
    ∧ initialRegistry = none
    ∧ (∀ (comps : List CompetitionConfig) (now : Datetime) (envf : String → Env)
      (ledger : Ledger), status ≠ 200 →
      update_config_and_announce_results (some comps) status body now envf ledger =
        (some comps, (announceSweep comps now envf ledger).1,
          (announceSweep comps now envf ledger).2)) := by
  refine ⟨?_, ?_, ?_, ?_, rfl, ?_⟩
  · intro hs
    simp [load_config_from_remote_repo, hs]
  · intro u hs hb
    subst hs
    simp [load_config_from_remote_repo, hb]
  · intro entries e hs hb hv
    subst hs
    simp [load_config_from_remote_repo, hb, hv]
  · intro entries cfgs hs hb hv
    subst hs
    simp [load_config_from_remote_repo, hb, hv]
  · intro comps now envf ledger hs
    have hload : load_config_from_remote_repo (some comps) status body =
        (.error .valueError, some comps) := by
      simp [load_config_from_remote_repo, hs]
    simp [update_config_and_announce_results, hload, sweepPhaseB]

/-- Witness for C8 at concrete inputs: a 404 refresh leaves a one-entry
registry untouched. -/
theorem c8_witness :
    load_config_from_remote_repo (some [comp0]) 404 (.ok []) =
      (.error .valueError, some [comp0]) :=
  (c8_registry_retention (some [comp0]) 404 (.ok [])).1 (by decide)

theorem mem_dedupFO {α : Type} [DecidableEq α] :
    ∀ (l : List α) (x : α), x ∈ dedupFO l ↔ x ∈ l := by
  have key : ∀ (n : Nat) (l : List α), l.length ≤ n → ∀ x,
      (x ∈ dedupFO l ↔ x ∈ l) := by
    intro n
    induction n with
    | zero =>
      intro l hl x
      cases l with
      | nil => simp [dedupFO_nil]
      | cons a as => simp at hl
    | succ n ih =>
      intro l hl x
      cases l with
      | nil => simp [dedupFO_nil]
      | cons a as =>
        rw [dedupFO_cons]
        have hlen : (as.filter (fun y => y ≠ a)).length ≤ n := by
          have := List.length_filter_le (fun y => decide (y ≠ a)) as
          simp only [List.length_cons, Nat.succ_le_succ_iff] at hl
          omega
        by_cases hxa : x = a
        · subst hxa; simp
        · simp only [List.mem_cons, ih _ hlen x, List.mem_filter]
          simp [hxa]
  exact fun l x => key l.length l le_rfl x

theorem indexOf_filter_lt {α : Type} [DecidableEq α] (p : α → Bool) :
    ∀ (l : List α) (x y : α), x ∈ l.filter p → y ∈ l.filter p →
      List.indexOf x (l.filter p) < List.indexOf y (l.filter p) →
      List.indexOf x l < List.indexOf y l := by
  intro l
  induction l with
  | nil => simp
  | cons a as ih =>
    intro x y hx hy hlt
    by_cases hpa : p a = true
    · rw [List.filter_cons_of_pos hpa] at hx hy hlt
      by_cases hxa : x = a
      · subst hxa
        by_cases hyx : y = x
        · subst hyx; omega
        · rw [List.indexOf_cons_self]
          rw [List.indexOf_cons_ne as (fun h => hyx h.symm)]
          omega
      · by_cases hya : y = a
        · subst hya
          rw [List.indexOf_cons_self] at hlt
          rw [List.indexOf_cons_ne _ (fun h => hxa h.symm)] at hlt
          omega
        · rw [List.indexOf_cons_ne _ (fun h => hxa h.symm),
            List.indexOf_cons_ne _ (fun h => hya h.symm)] at hlt ⊢
          have hx' : x ∈ as.filter p := by
            rcases List.mem_cons.mp hx with h | h
            · exact absurd h hxa
            · exact h
          have hy' : y ∈ as.filter p := by
            rcases List.mem_cons.mp hy with h | h
            · exact absurd h hya
            · exact h
          have := ih x y hx' hy' (by omega)
          omega
    · rw [List.filter_cons_of_neg hpa] at hx hy hlt
      have hxa : x ≠ a := by
        intro h; subst h; exact hpa (List.of_mem_filter hx)
      have hya : y ≠ a := by
        intro h; subst h; exact hpa (List.of_mem_filter hy)
      rw [List.indexOf_cons_ne _ (fun h => hxa h.symm),
        List.indexOf_cons_ne _ (fun h => hya h.symm)]
      have := ih x y hx hy hlt
      omega

theorem dedupFO_pairwise_indexOf {α : Type} [DecidableEq α] :
    ∀ (l : List α),
      (dedupFO l).Pairwise (fun a b => List.indexOf a l < List.indexOf b l) := by
  have key : ∀ (n : Nat) (l : List α), l.length ≤ n →
      (dedupFO l).Pairwise (fun a b => List.indexOf a l < List.indexOf b l) := by
    intro n
    induction n with
    | zero =>
      intro l hl
      cases l with
      | nil => simp [dedupFO_nil]
      | cons a as => simp at hl
    | succ n ih =>
      intro l hl
      cases l with
      | nil => simp [dedupFO_nil]
      | cons a as =>
        rw [dedupFO_cons]
        have hlen : (as.filter (fun y => y ≠ a)).length ≤ n := by
          have := List.length_filter_le (fun y => decide (y ≠ a)) as
          simp only [List.length_cons, Nat.succ_le_succ_iff] at hl
          omega
        rw [List.pairwise_cons]
        constructor
        · intro b hb
          have hbf : b ∈ as.filter (fun y => y ≠ a) :=
            (mem_dedupFO _ b).mp hb
          have hba : b ≠ a := by
            have := List.of_mem_filter hbf
            simpa using this
          rw [List.indexOf_cons_self, List.indexOf_cons_ne as hba.symm]
          omega
        · have hpw := ih _ hlen
          refine hpw.imp_of_mem ?_
          intro x y hx hy hxy
          have hxf : x ∈ as.filter (fun z => z ≠ a) := (mem_dedupFO _ x).mp hx
          have hyf : y ∈ as.filter (fun z => z ≠ a) := (mem_dedupFO _ y).mp hy
          have hxa : x ≠ a := by have := List.of_mem_filter hxf; simpa using this
          have hya : y ≠ a := by have := List.of_mem_filter hyf; simpa using this
          have hin := indexOf_filter_lt _ as x y hxf hyf hxy
          rw [List.indexOf_cons_ne as hxa.symm, List.indexOf_cons_ne as hya.symm]
          omega
  exact fun l => key l.length l le_rfl

theorem pickFirstMax_map {α : Type} (c : α → Nat) :
    ∀ (ks : List α) (p : α),
      pickFirstMax (p, c p) (ks.map (fun u => (u, c u))) =
        (pickKeyMax c p ks, c (pickKeyMax c p ks)) := by
  intro ks
  induction ks with
  | nil => intro p; rfl
  | cons k ks ih =>
    intro p
    simp only [List.map_cons, pickFirstMax, pickKeyMax]
    by_cases h : c p < c k
    · rw [if_pos h, if_pos h, ih k]
    · rw [if_neg h, if_neg h, ih p]

theorem pickKeyMax_spec {α : Type} (c : α → Nat) :
    ∀ (ks : List α) (p : α),
      ∃ l₁ l₂, p :: ks = l₁ ++ pickKeyMax c p ks :: l₂ ∧
        (∀ q ∈ l₁, c q < c (pickKeyMax c p ks)) ∧
        (∀ q ∈ l₂, c q ≤ c (pickKeyMax c p ks)) := by
  intro ks
  induction ks with
  | nil =>
    intro p
    exact ⟨[], [], rfl, by simp, by simp⟩
  | cons k ks ih =>
    intro p
    by_cases h : c p < c k
    · obtain ⟨l₁, l₂, heq, h₁, h₂⟩ := ih k
      have hres : pickKeyMax c p (k :: ks) = pickKeyMax c k ks := by
        simp [pickKeyMax, h]
      have hkr : c k ≤ c (pickKeyMax c k ks) := by
        cases l₁ with
        | nil =>
          injection heq with h3 _
          exact le_of_eq (congrArg c h3)
        | cons b l₁' =>
          injection heq with h3 _
          subst h3
          exact le_of_lt (h₁ k (by simp))
      refine ⟨p :: l₁, l₂, ?_, ?_, ?_⟩
      · rw [hres, List.cons_append, ← heq]
      · intro q hq
        rw [hres]
        rcases List.mem_cons.mp hq with h4 | h4
        · subst h4; omega
        · exact h₁ q h4
      · intro q hq
        rw [hres]
        exact h₂ q hq
    · obtain ⟨l₁, l₂, heq, h₁, h₂⟩ := ih p
      have hres : pickKeyMax c p (k :: ks) = pickKeyMax c p ks := by
        simp [pickKeyMax, h]
      cases l₁ with
      | nil =>
        injection heq with h3 h4
        refine ⟨[], k :: l₂, ?_, by simp, ?_⟩
        · rw [hres, List.nil_append, ← h3, h4]
        · intro q hq
          rw [hres, ← h3]
          rcases List.mem_cons.mp hq with h5 | h5
          · subst h5; omega
          · have := h₂ q h5
            rw [← h3] at this
            omega
      | cons b l₁' =>
        injection heq with h3 h4
        subst h3
        have hpr : c p < c (pickKeyMax c p ks) := h₁ p (by simp)
        refine ⟨p :: k :: l₁', l₂, ?_, ?_, ?_⟩
        · rw [hres]
          simp only [List.cons_append]
          exact congrArg (fun t => p :: k :: t) h4
        · intro q hq
          rw [hres]
          rcases List.mem_cons.mp hq with h5 | h5
          · subst h5; omega
          · rcases List.mem_cons.mp h5 with h6 | h6
            · subst h6; omega
            · exact h₁ q (by simp [h6])
        · intro q hq
          rw [hres]
          exact h₂ q hq

theorem mostCommon1_characterization {α : Type} [DecidableEq α] (a : α)
    (as : List α) :
    ∃ v, mostCommon1 (a :: as) = some v ∧ v ∈ a :: as ∧
      (∀ w ∈ a :: as, List.count w (a :: as) ≤ List.count v (a :: as)) ∧
      (∀ w ∈ a :: as, List.count w (a :: as) = List.count v (a :: as) →
        List.indexOf v (a :: as) ≤ List.indexOf w (a :: as)) := by
  have hded := dedupFO_cons a as
  obtain ⟨l₁, l₂, heq, h₁, h₂⟩ :=
    pickKeyMax_spec (fun v => List.count v (a :: as))
      (dedupFO (as.filter (fun x => x ≠ a))) a
  set r := pickKeyMax (fun v => List.count v (a :: as)) a
    (dedupFO (as.filter (fun x => x ≠ a))) with hr
  have hdecomp : dedupFO (a :: as) = l₁ ++ r :: l₂ := by rw [hded]; exact heq
  have hmc : mostCommon1 (a :: as) = some r := by
    unfold mostCommon1 counterItems
    rw [hded]
    simp only [List.map_cons]
    rw [pickFirstMax_map (fun v => List.count v (a :: as))
      (dedupFO (as.filter (fun x => x ≠ a))) a]
  have hmemdecomp : ∀ w, w ∈ a :: as → w ∈ l₁ ++ r :: l₂ := by
    intro w hw
    rw [← hdecomp]
    exact (mem_dedupFO _ w).mpr hw
  refine ⟨r, hmc, ?_, ?_, ?_⟩
  · have : r ∈ dedupFO (a :: as) := by
      rw [hdecomp]
      exact List.mem_append_right _ (List.mem_cons_self _ _)
    exact (mem_dedupFO _ r).mp this
  · intro w hw
    rcases List.mem_append.mp (hmemdecomp w hw) with h3 | h3
    · exact le_of_lt (h₁ w h3)
    · rcases List.mem_cons.mp h3 with h4 | h4
      · subst h4; exact le_refl _
      · exact h₂ w h4
  · intro w hw hcnt
    rcases List.mem_append.mp (hmemdecomp w hw) with h3 | h3
    · have := h₁ w h3
      omega
    · rcases List.mem_cons.mp h3 with h4 | h4
      · subst h4; exact le_refl _
      · have hpw := dedupFO_pairwise_indexOf (a :: as)
        rw [hdecomp] at hpw
        have h5 := (List.pairwise_append.mp hpw).2.1
        have h6 := (List.pairwise_cons.mp h5).1 w h4
        exact le_of_lt h6

/-- C5.  The winner is the mode of the vote multiset collected in
iteration order over the records: `Counter.most_common(1)` (bot.py line
137) returns a value of maximal multiplicity, and among values of maximal
multiplicity the one whose first occurrence in the vote list is earliest.
The concrete conjuncts replay the spec's examples: votes `[A, B, A]`
select `A`, the tie `[A, B]` selects `A`, and the full aggregation of
`envTie`'s records announces `A`. -/
theorem c5_mode_first_tiebreak :
    (∀ (runs : List Run) (v : PyVal),
      mostCommon1 (collectVotes runs).2 = some v →
      v ∈ (collectVotes runs).2 ∧
      (∀ w ∈ (collectVotes runs).2,
        List.count w (collectVotes runs).2 ≤ List.count v (collectVotes runs).2) ∧
      (∀ w ∈ (collectVotes runs).2,
        List.count w (collectVotes runs).2 = List.count v (collectVotes runs).2 →
        List.indexOf v (collectVotes runs).2 ≤ List.indexOf w (collectVotes runs).2))
    ∧ (∀ runs : List Run, (collectVotes runs).2 ≠ [] →
      ∃ v, mostCommon1 (collectVotes runs).2 = some v)
    ∧ (collectVotes [[("winning_hotkey", PyVal.str "A")],
        [("winning_hotkey", PyVal.str "B")],
        [("winning_hotkey", PyVal.str "A")]]).2 =
      [PyVal.str "A", PyVal.str "B", PyVal.str "A"]
    ∧ mostCommon1 [PyVal.str "A", PyVal.str "B", PyVal.str "A"] =
      some (PyVal.str "A")
    ∧ mostCommon1 [PyVal.str "A", PyVal.str "B"] = some (PyVal.str "A")
    ∧ (get_competition_data comp0 now0 envTie initialLedger).result =
      .ok (some ⟨"melanoma-1", occ0, 10, 1, "A", 42⟩) := by
  refine ⟨?_, ?_, rfl, rfl, rfl, rfl⟩
  · intro runs v hv
    cases hvotes : (collectVotes runs).2 with
    | nil =>
      rw [hvotes] at hv
      exact absurd hv (by simp [mostCommon1, counterItems, dedupFO_nil])
    | cons a as =>
      rw [hvotes] at hv
      obtain ⟨v', hmc, hmem, hcnt, hidx⟩ := mostCommon1_characterization a as
      rw [hv] at hmc
      injection hmc with hvv
      subst hvv
      exact ⟨hmem, hcnt, hidx⟩
  · intro runs hne
    cases hvotes : (collectVotes runs).2 with
    | nil => exact absurd hvotes hne
    | cons a as =>
      obtain ⟨v', hmc, _, _, _⟩ := mostCommon1_characterization a as
      exact ⟨v', hmc⟩

/-- Witness for C5 at concrete inputs: for the votes `[A, B, A]` of the
spec's example, the selected winner `A` is a maximal-count vote, checked
against vote `B`. -/
theorem c5_witness :
    PyVal.str "A" ∈ (collectVotes [[("winning_hotkey", PyVal.str "A")],
      [("winning_hotkey", PyVal.str "B")],
      [("winning_hotkey", PyVal.str "A")]]).2
    ∧ List.count (PyVal.str "B") (collectVotes [[("winning_hotkey", PyVal.str "A")],
      [("winning_hotkey", PyVal.str "B")],
      [("winning_hotkey", PyVal.str "A")]]).2 ≤
      List.count (PyVal.str "A") (collectVotes [[("winning_hotkey", PyVal.str "A")],
      [("winning_hotkey", PyVal.str "B")],
      [("winning_hotkey", PyVal.str "A")]]).2 := by
  have h := c5_mode_first_tiebreak.1
    [[("winning_hotkey", PyVal.str "A")], [("winning_hotkey", PyVal.str "B")],
      [("winning_hotkey", PyVal.str "A")]] (PyVal.str "A") rfl
  exact ⟨h.1, h.2.1 (PyVal.str "B") (by decide)⟩

theorem isDigit_ofNat (d : Nat) (h : d < 10) : (Char.ofNat (48 + d)).isDigit := by
  interval_cases d <;> decide

theorem natChars_digits : ∀ (n : Nat), ∀ ch ∈ natChars n, ch.isDigit := by
  intro n
  induction n using Nat.strong_induction_on with
  | _ n ih =>
    intro ch hch
    rw [natChars_eq] at hch
    by_cases h10 : n < 10
    · rw [if_pos h10] at hch
      simp only [List.mem_singleton] at hch
      subst hch
      exact isDigit_ofNat n h10
    · rw [if_neg h10] at hch
      rcases List.mem_append.mp hch with h1 | h1
      · exact ih (n / 10) (Nat.div_lt_self (by omega) (by omega)) ch h1
      · simp only [List.mem_singleton] at h1
        subst h1
        exact isDigit_ofNat (n % 10) (Nat.mod_lt _ (by omega))

theorem natChars_len1 (n : Nat) (h : n < 10) : (natChars n).length = 1 := by
  rw [natChars_eq, if_pos h]; rfl

theorem natChars_len2 (n : Nat) (h1 : 10 ≤ n) (h2 : n < 100) :
    (natChars n).length = 2 := by
  rw [natChars_eq, if_neg (by omega)]
  rw [List.length_append, natChars_len1 (n / 10) (by omega)]
  rfl

theorem natChars_len3 (n : Nat) (h1 : 100 ≤ n) (h2 : n < 1000) :
    (natChars n).length = 3 := by
  rw [natChars_eq, if_neg (by omega)]
  rw [List.length_append, natChars_len2 (n / 10) (by omega) (by omega)]
  rfl

theorem natChars_len4 (n : Nat) (h1 : 1000 ≤ n) (h2 : n < 10000) :
    (natChars n).length = 4 := by
  rw [natChars_eq, if_neg (by omega)]
  rw [List.length_append, natChars_len3 (n / 10) (by omega) (by omega)]
  rfl

theorem pad2Chars_length (m : Nat) (hm : m ≤ 99) : (pad2Chars m).length = 2 := by
  unfold pad2Chars
  by_cases h : m < 10
  · rw [if_pos h, List.length_cons, natChars_len1 m h]
  · rw [if_neg h]
    exact natChars_len2 m (by omega) (by omega)

theorem pad2Chars_pair (m : Nat) (hm : m ≤ 99) :
    ∃ b c, pad2Chars m = [b, c] ∧ b.isDigit ∧ c.isDigit := by
  have hlen := pad2Chars_length m hm
  have hdig : ∀ ch ∈ pad2Chars m, ch.isDigit := by
    intro ch hch
    unfold pad2Chars at hch
    by_cases h : m < 10
    · rw [if_pos h] at hch
      rcases List.mem_cons.mp hch with h1 | h1
      · subst h1; decide
      · exact natChars_digits m ch h1
    · rw [if_neg h] at hch
      exact natChars_digits m ch hch
  match hp : pad2Chars m with
  | [b, c] =>
    rw [hp] at hdig
    exact ⟨b, c, rfl, hdig b (by simp), hdig c (by simp)⟩
  | [] => rw [hp] at hlen; simp at hlen
  | [b] => rw [hp] at hlen; simp at hlen
  | b :: c :: e :: t => rw [hp] at hlen; simp at hlen

theorem pad4Chars_length (n : Nat) (h : n ≤ 9999) : (pad4Chars n).length = 4 := by
  unfold pad4Chars
  by_cases h1 : n < 10
  · rw [if_pos h1]
    simp [natChars_len1 n h1]
  · rw [if_neg h1]
    by_cases h2 : n < 100
    · rw [if_pos h2]
      simp [natChars_len2 n (by omega) h2]
    · rw [if_neg h2]
      by_cases h3 : n < 1000
      · rw [if_pos h3]
        simp [natChars_len3 n (by omega) h3]
      · rw [if_neg h3]
        exact natChars_len4 n (by omega) (by omega)

/-- C9.  `create_discord_message` is a pure total function (a Lean `def`
with no error monad), and for every announcement value its text carries
the six fields in the contract's order — competition id, date, dataset
size, tested-model count, winning identifier, score; the score rendering
ends in a dot followed by exactly two digit characters (and no other dot
after the integer part's digits), and the date rendering has the fixed
20-character `YYYY.MM.DD HH:MM UTC` shape for in-range field values. -/
theorem c9_compose_fields_in_order (d : DiscordAnnouncementData) :
    fieldsAppear [d.competition_id.data, (formatDate d.competition_date).data,
      intChars d.dataset_size, natChars d.tested_models_amount,
      d.winning_hotkey.data, formatScore2Chars d.score]
      (create_discord_message d).data
    ∧ (∃ pre b c, formatScore2Chars d.score = pre ++ ['.', b, c] ∧
      b.isDigit ∧ c.isDigit ∧ '.' ∉ pre)
    ∧ (d.competition_date.year ≤ 9999 → d.competition_date.month ≤ 99 →
      d.competition_date.day ≤ 99 → d.competition_date.hour ≤ 99 →
      d.competition_date.minute ≤ 99 →
      (formatDate d.competition_date).data.length = 20) := by
  refine ⟨?_, ?_, ?_⟩
  · have hdata : (create_discord_message d).data =
        "# Competition results\n\n**".data ++ d.competition_id.data ++
          ("**  - `".data ++ (formatDate d.competition_date).data ++
            ("`\nDataset size: ".data ++ intChars d.dataset_size ++
              ("\n\nTested models - ".data ++ natChars d.tested_models_amount ++
                ("\n\nWinning hotkey - ".data ++ d.winning_hotkey.data ++
                  ("\n\nScore: **".data ++ formatScore2Chars d.score ++
                    "**".data))))) := by
      simp [create_discord_message, String.data_append, List.append_assoc]
    rw [hdata]
    exact ⟨_, _, rfl, _, _, rfl, _, _, rfl, _, _, rfl, _, _, rfl, _, _, rfl,
      trivial⟩
  · obtain ⟨b, c, hp, hb, hc⟩ :=
      pad2Chars_pair (d.score.natAbs % 100) (by omega)
    refine ⟨(if d.score < 0 then ['-'] else []) ++
      natChars (d.score.natAbs / 100), b, c, ?_, hb, hc, ?_⟩
    · unfold formatScore2Chars
      rw [hp, List.append_assoc]
    · intro hmem
      rcases List.mem_append.mp hmem with h1 | h1
      · by_cases hneg : d.score < 0
        · rw [if_pos hneg] at h1
          simp at h1
        · rw [if_neg hneg] at h1
          simp at h1
      · have := natChars_digits _ _ h1
        simp at this
  · intro hy hmo hd hh hmi
    show (pad4Chars d.competition_date.year ++
      '.' :: pad2Chars d.competition_date.month ++
      '.' :: pad2Chars d.competition_date.day ++
      ' ' :: pad2Chars d.competition_date.hour ++
      ':' :: pad2Chars d.competition_date.minute ++ [' ', 'U', 'T', 'C']).length = 20
    simp only [List.length_append, List.length_cons]
    rw [pad4Chars_length _ hy, pad2Chars_length _ hmo, pad2Chars_length _ hd,
      pad2Chars_length _ hh, pad2Chars_length _ hmi]
    rfl

/-- Witness for C9 at concrete inputs: `d0`'s date renders as the fixed
20-character form. -/
theorem c9_witness :
    (formatDate d0.competition_date).data.length = 20 :=
  (c9_compose_fields_in_order d0).2.2 (by decide) (by decide) (by decide)
    (by decide) (by decide)
